import Mathlib

/-!
Shallow embedding of the bye-watch price-threshold watcher (src/main.rs) and
proofs about its alert state machine. Machine integers (`u64`) are modeled as
`ℕ` with explicit wrapping modulo `2 ^ 64` where the source's arithmetic can
overflow; `f64` numeric values are modeled exactly as rationals; fallible or
process-aborting code returns `Option`.
-/

namespace ByeWatch

/-- Direction of an alert comparison (`enum AlertCondition` in the source). -/
inductive AlertCondition where
  | Above
  | Below
deriving DecidableEq, Repr

/-- One configured alert (`struct CurrencyAlert`): the current price is compared
against `threshold`; `last_alerted` is the epoch-seconds timestamp of the last
fired alert, `none` when the rule is not in alerted state. -/
structure CurrencyAlert where
  symbol : String
  threshold : ℚ
  alert_condition : AlertCondition
  last_alerted : Option ℕ
deriving DecidableEq, Repr

/-- The configuration fields the core logic reads (`struct Config`). The SMTP
credentials are opaque to the core and omitted. -/
structure Config where
  check_interval : ℕ
  withold_notification_h : Option ℕ
  currencies : List CurrencyAlert
deriving DecidableEq, Repr

/-- One entry of the decoded price feed (`struct BinancePrice`): the price
arrives as a string and is parsed where used. -/
structure BinancePrice where
  symbol : String
  price : String
deriving DecidableEq, Repr

/-- Value denoted by a list of decimal digit characters. -/
def digitsVal (l : List Char) : ℕ :=
  l.foldl (fun a c => a * 10 + (c.toNat - 48)) 0

/-- Model of Rust `str::parse::<f64>()` restricted to plain decimal literals:
optional sign, then an integer part and an optional fractional part, with at
least one digit overall; `none` exactly when the string is not such a literal.
Exponent, `inf` and `NaN` forms are not modeled, and the numeric value is kept
exact as a rational (no IEEE rounding). -/
def parseF64 (s : String) : Option ℚ :=
  let signAndBody : Bool × List Char :=
    match s.data with
    | '-' :: r => (true, r)
    | '+' :: r => (false, r)
    | r => (false, r)
  let neg := signAndBody.1
  let body := signAndBody.2
  let intPart := body.takeWhile Char.isDigit
  let rest := body.dropWhile Char.isDigit
  match rest with
  | [] =>
      if intPart.isEmpty then none
      else some (if neg then -(digitsVal intPart : ℚ) else (digitsVal intPart : ℚ))
  | '.' :: frac =>
      if frac.all Char.isDigit && !(intPart.isEmpty && frac.isEmpty) then
        let v : ℚ := (digitsVal intPart : ℚ) + (digitsVal frac : ℚ) / (10 : ℚ) ^ frac.length
        some (if neg then -v else v)
      else none
  | _ => none

/-- The `u64` subtraction `current_time - timestamp` from `check_currencies`:
plain `-` on `u64`, which wraps modulo `2 ^ 64` on underflow (release-build
semantics; a debug build would abort). Valid for `b ≤ 2 ^ 64`, which holds for
`u64` inputs. -/
def wrapSub64 (a b : ℕ) : ℕ :=
  (a + 2 ^ 64 - b) % 2 ^ 64

/-- The `alert_triggered` computation from `check_currencies`: strict comparison
of the parsed price against the threshold, direction given by the condition. -/
def alert_triggered (cond : AlertCondition) (price threshold : ℚ) : Bool :=
  match cond with
  | .Above => decide (price > threshold)
  | .Below => decide (price < threshold)

/-- The `should_alert` computation from `check_currencies`: fire when never
alerted, or when the (wrapping) elapsed time strictly exceeds the withhold
window. -/
def should_alert (withold_time_secs current_time : ℕ) (last_alerted : Option ℕ) : Bool :=
  match last_alerted with
  | some timestamp => decide (wrapSub64 current_time timestamp > withold_time_secs)
  | none => true

/-- The rendered alert text `price_text` from `check_currencies`, modeled by the
values interpolated into the format string (exact float formatting abstracted).
`time` is the `Local::now()` wall-clock string read when the message is
rendered; `price` is `current_price.price.parse::<f64>().unwrap_or(0.0)`. -/
structure Message where
  symbol : String
  condition : AlertCondition
  threshold : ℚ
  price : ℚ
  time : String
deriving DecidableEq, Repr

/-- Body of the `for currency in &mut config.currencies` loop in
`check_currencies`, for one rule: `none` models the process aborting because
`current_price.price.parse::<f64>().unwrap()` fails; otherwise the (possibly
updated) rule together with the rendered message when the rule fired. `ltime`
is the `Local::now()` string that would be read if a message is rendered. -/
def checkRule (withold_time_secs current_time : ℕ) (ltime : String)
    (prices : List BinancePrice) (currency : CurrencyAlert) :
    Option (CurrencyAlert × Option Message) :=
  match prices.find? (fun p => p.symbol == currency.symbol) with
  | none => some (currency, none)
  | some current_price =>
    match parseF64 current_price.price with
    | none => none
    | some price =>
      if alert_triggered currency.alert_condition price currency.threshold then
        if should_alert withold_time_secs current_time currency.last_alerted then
          some ({ currency with last_alerted := some current_time },
            some { symbol := currency.symbol
                   condition := currency.alert_condition
                   threshold := currency.threshold
                   price := (parseF64 current_price.price).getD 0
                   time := ltime })
        else
          some (currency, none)
      else
        if currency.last_alerted.isSome then
          some ({ currency with last_alerted := none }, none)
        else
          some (currency, none)

/-- The full rule loop of `check_currencies`, threading the notification body
(the Rust `String` accumulated by `push_str` is modeled as the list of rendered
messages, concatenation as list append). `ltime i` is the `Local::now()` string
observed while processing rule `i`; `none` models a parse failure aborting the
process mid-loop. -/
def checkRules (withold_time_secs current_time : ℕ) (ltime : ℕ → String)
    (prices : List BinancePrice) :
    List CurrencyAlert → ℕ → Option (List CurrencyAlert × List Message)
  | [], _ => some ([], [])
  | c :: cs, i =>
    match checkRule withold_time_secs current_time (ltime i) prices c with
    | none => none
    | some (c', m) =>
      match checkRules withold_time_secs current_time ltime prices cs (i + 1) with
      | none => none
      | some (cs', bodyRest) => some (c' :: cs', m.toList ++ bodyRest)

/-- The pure filtering stage of `fetch_prices`: keep only entries whose symbol
is configured. The HTTP transport outcome is supplied separately as
`FetchResult`. -/
def fetch_prices (config : Config) (prices : List BinancePrice) : List BinancePrice :=
  let currency_symbols := config.currencies.map (fun c => c.symbol)
  prices.filter (fun price_data => currency_symbols.contains price_data.symbol)

/-- Outcome of the HTTP fetch inside `fetch_prices`: the raw decoded price
list, or a transport/HTTP failure (`Err` propagated by `?`). -/
inductive FetchResult where
  | ok (prices : List BinancePrice)
  | err
deriving DecidableEq, Repr

/-- Result of one `check_currencies` call: a parse failure aborts the whole
process; a fetch failure returns `Err` early with the config untouched;
otherwise the updated config, the aggregated notification body handed to
`send_email` when non-empty, and whether that send succeeded (vacuously `true`
when no email was sent). -/
inductive CheckResult where
  | panic
  | fetchErr
  | done (config : Config) (notification : Option (List Message)) (notifyOk : Bool)
deriving DecidableEq, Repr

/-- `check_currencies`: fetch and filter prices, read the clock once into
`current_time`, evaluate every rule accumulating the body, and send one
aggregated email only if the body is non-empty. `notify_ok` is the SMTP
collaborator's outcome, consulted only when the email is actually sent.
`withold_notification_h` defaults to 24 hours (in seconds) when unset. -/
def check_currencies (config : Config) (fetch : FetchResult) (notify_ok : Bool)
    (current_time : ℕ) (ltime : ℕ → String) : CheckResult :=
  match fetch with
  | .err => .fetchErr
  | .ok raw =>
    let prices := fetch_prices config raw
    let withold_time_secs := config.withold_notification_h.getD (24 * 60 * 60)
    match checkRules withold_time_secs current_time ltime prices config.currencies 0 with
    | none => .panic
    | some (currencies', body) =>
      let config' := { config with currencies := currencies' }
      if body.isEmpty then .done config' none true
      else .done config' (some body) notify_ok

/-- Observable effects of one pass of the `loop` in `main`: the in-memory
config afterwards, the config value written to the state file (`none` when the
process aborted before the write), how many `send_email` calls were made, and
whether the `Err` branch of the `match` reported an error. -/
structure IterResult where
  config : Config
  written : Option Config
  notifierCalls : ℕ
  errorReported : Bool
deriving DecidableEq, Repr

/-- One iteration of the `loop` in `main`: run `check_currencies` (printing the
error if it returns `Err`), then unconditionally serialize and rewrite the
state file with the current config — unless a parse failure aborted the process
before reaching the write. -/
def mainIter (config : Config) (fetch : FetchResult) (notify_ok : Bool)
    (current_time : ℕ) (ltime : ℕ → String) : IterResult :=
  match check_currencies config fetch notify_ok current_time ltime with
  | .panic =>
    { config := config, written := none, notifierCalls := 0, errorReported := false }
  | .fetchErr =>
    { config := config, written := some config, notifierCalls := 0, errorReported := true }
  | .done config' notification notifyOk =>
    { config := config'
      written := some config'
      notifierCalls := if notification.isSome then 1 else 0
      errorReported := notification.isSome && !notifyOk }

/-- The messages of exactly the rules that fire, in rule order: the independent
characterization of the notification body used by the batching theorems. -/
def firedMsgs (withold_time_secs current_time : ℕ) (ltime : ℕ → String)
    (prices : List BinancePrice) :
    List CurrencyAlert → ℕ → List Message
  | [], _ => []
  | c :: cs, i =>
    (match checkRule withold_time_secs current_time (ltime i) prices c with
     | some (_, some m) => [m]
     | _ => []) ++ firedMsgs withold_time_secs current_time ltime prices cs (i + 1)

/-- For in-range `u64` operands with `b ≤ a`, the wrapping subtraction agrees
with mathematical subtraction. -/
theorem wrapSub64_of_le {a b : ℕ} (hba : b ≤ a) (ha : a < 2 ^ 64) :
    wrapSub64 a b = a - b := by
  unfold wrapSub64
  omega

/-- A rule evaluation that produces a message took the fire branch: the rule's
timestamp was set to `current_time` and the message records the rule's data and
the wall-clock string passed in. -/
theorem checkRule_fired {w t : ℕ} {l : String} {pr : List BinancePrice}
    {c c' : CurrencyAlert} {m : Message}
    (h : checkRule w t l pr c = some (c', some m)) :
    c' = { c with last_alerted := some t } ∧ m.time = l := by
  unfold checkRule at h
  split at h
  · simp at h
  · split at h
    · exact absurd h (by simp)
    · split at h
      · split at h
        · simp only [Option.some.injEq, Prod.mk.injEq] at h
          obtain ⟨h1, h2⟩ := h
          exact ⟨h1.symm, by rw [← h2]⟩
        · simp at h
      · split at h <;> simp at h

/-- A completed rule loop's body is exactly the list of fired messages in rule
order. -/
theorem checkRules_body {w t : ℕ} {lt : ℕ → String} {pr : List BinancePrice} :
    ∀ (cs : List CurrencyAlert) (i : ℕ) (cs' : List CurrencyAlert) (b : List Message),
      checkRules w t lt pr cs i = some (cs', b) → b = firedMsgs w t lt pr cs i := by
  intro cs
  induction cs with
  | nil =>
    intro i cs' b h
    simp only [checkRules, Option.some.injEq, Prod.mk.injEq] at h
    simp [firedMsgs, h.2.symm]
  | cons c cs ih =>
    intro i cs' b h
    simp only [checkRules] at h
    cases hr : checkRule w t (lt i) pr c with
    | none => rw [hr] at h; simp at h
    | some cm =>
      rw [hr] at h
      obtain ⟨c1, m1⟩ := cm
      cases hrec : checkRules w t lt pr cs (i + 1) with
      | none => rw [hrec] at h; simp at h
      | some rb =>
        rw [hrec] at h
        obtain ⟨cs2, b2⟩ := rb
        simp only [Option.some.injEq, Prod.mk.injEq] at h
        have hb2 : b2 = firedMsgs w t lt pr cs (i + 1) := ih (i + 1) cs2 b2 hrec
        rw [← h.2, hb2]
        simp only [firedMsgs, hr]
        cases m1 <;> simp

/-- Fired messages of a concatenation of rule lists split accordingly. -/
theorem firedMsgs_append {w t : ℕ} {lt : ℕ → String} {pr : List BinancePrice} :
    ∀ (xs ys : List CurrencyAlert) (i : ℕ),
      firedMsgs w t lt pr (xs ++ ys) i =
        firedMsgs w t lt pr xs i ++ firedMsgs w t lt pr ys (i + xs.length) := by
  intro xs
  induction xs with
  | nil => intro ys i; simp [firedMsgs]
  | cons x xs ih =>
    intro ys i
    have harith : i + (xs.length + 1) = i + 1 + xs.length := by omega
    simp only [List.cons_append, firedMsgs, List.append_eq, List.length_cons, harith,
      ih ys (i + 1), List.append_assoc]

/-- A completed rule loop evaluates each rule at its position: the output list
holds, at index `j`, the first component of `checkRule` on the input rule at
index `j`, evaluated with that position's wall-clock string. -/
theorem checkRules_get {w t : ℕ} {lt : ℕ → String} {pr : List BinancePrice} :
    ∀ (cs : List CurrencyAlert) (i : ℕ) (cs' : List CurrencyAlert) (b : List Message),
      checkRules w t lt pr cs i = some (cs', b) →
      ∀ (j : ℕ) (c : CurrencyAlert), cs[j]? = some c →
        ∃ c' m, checkRule w t (lt (i + j)) pr c = some (c', m) ∧ cs'[j]? = some c' := by
  intro cs
  induction cs with
  | nil => intro i cs' b h j c hj; simp at hj
  | cons c0 cs ih =>
    intro i cs' b h j c hj
    simp only [checkRules] at h
    cases hr : checkRule w t (lt i) pr c0 with
    | none => rw [hr] at h; simp at h
    | some cm =>
      rw [hr] at h
      obtain ⟨c1, m1⟩ := cm
      cases hrec : checkRules w t lt pr cs (i + 1) with
      | none => rw [hrec] at h; simp at h
      | some rb =>
        rw [hrec] at h
        obtain ⟨cs2, b2⟩ := rb
        simp only [Option.some.injEq, Prod.mk.injEq] at h
        obtain ⟨hcs, hb⟩ := h
        cases j with
        | zero =>
          simp only [List.getElem?_cons_zero, Option.some.injEq] at hj
          subst hj
          refine ⟨c1, m1, ?_, ?_⟩
          · simpa [Nat.add_zero] using hr
          · rw [← hcs]; simp
        | succ j =>
          simp only [List.getElem?_cons_succ] at hj
          obtain ⟨c', m, hcr, hget⟩ := ih (i + 1) cs2 b2 hrec j c hj
          have harith : i + 1 + j = i + (j + 1) := by omega
          rw [harith] at hcr
          refine ⟨c', m, hcr, ?_⟩
          rw [← hcs]; simpa using hget

/-- One rule's outcome apart from the rendered message does not depend on the
wall-clock string. -/
theorem checkRule_fst_oracle (w t : ℕ) (l1 l2 : String) (pr : List BinancePrice)
    (c : CurrencyAlert) :
    Option.map (fun x => x.1) (checkRule w t l1 pr c) =
      Option.map (fun x => x.1) (checkRule w t l2 pr c) := by
  cases hf : pr.find? (fun p => p.symbol == c.symbol) with
  | none => simp [checkRule, hf]
  | some cp =>
    cases hp : parseF64 cp.price with
    | none => simp [checkRule, hf, hp]
    | some v =>
      by_cases h1 : alert_triggered c.alert_condition v c.threshold = true
      · by_cases h2 : should_alert w t c.last_alerted = true
        · simp [checkRule, hf, hp, h1, h2]
        · simp [checkRule, hf, hp, h1, h2]
      · simp only [Bool.not_eq_true] at h1
        simp [checkRule, hf, hp, h1]

/-- The updated rule list of a completed loop does not depend on the
per-message wall-clock strings (only the rendered messages do). -/
theorem checkRules_fst_oracle {w t : ℕ} {pr : List BinancePrice} :
    ∀ (cs : List CurrencyAlert) (lt1 lt2 : ℕ → String) (i1 i2 : ℕ),
      Option.map (fun x => x.1) (checkRules w t lt1 pr cs i1) =
        Option.map (fun x => x.1) (checkRules w t lt2 pr cs i2) := by
  intro cs
  induction cs with
  | nil => intro lt1 lt2 i1 i2; rfl
  | cons c cs ih =>
    intro lt1 lt2 i1 i2
    have hc := checkRule_fst_oracle w t (lt1 i1) (lt2 i2) pr c
    have hrec := ih lt1 lt2 (i1 + 1) (i2 + 1)
    simp only [checkRules]
    cases h1 : checkRule w t (lt1 i1) pr c with
    | none =>
      rw [h1] at hc
      cases h2 : checkRule w t (lt2 i2) pr c with
      | none => rfl
      | some cm2 => rw [h2] at hc; simp at hc
    | some cm1 =>
      rw [h1] at hc
      cases h2 : checkRule w t (lt2 i2) pr c with
      | none => rw [h2] at hc; simp at hc
      | some cm2 =>
        rw [h2] at hc
        simp only [Option.map_some'] at hc
        cases hr1 : checkRules w t lt1 pr cs (i1 + 1) with
        | none =>
          rw [hr1] at hrec
          cases hr2 : checkRules w t lt2 pr cs (i2 + 1) with
          | none => rfl
          | some rb2 => rw [hr2] at hrec; simp at hrec
        | some rb1 =>
          rw [hr1] at hrec
          cases hr2 : checkRules w t lt2 pr cs (i2 + 1) with
          | none => rw [hr2] at hrec; simp at hrec
          | some rb2 =>
            rw [hr2] at hrec
            simp only [Option.map_some'] at hrec
            simp
            exact ⟨Option.some.inj hc, Option.some.inj hrec⟩

/-- Inversion of a completed `check_currencies` call: the rule loop finished,
the config carries the loop's updated rules, and the notification is the body
exactly when the body is non-empty. -/
theorem check_currencies_done {config : Config} {raw : List BinancePrice}
    {notify_ok : Bool} {now : ℕ} {lt : ℕ → String}
    {config' : Config} {notif : Option (List Message)} {nok : Bool}
    (h : check_currencies config (.ok raw) notify_ok now lt = .done config' notif nok) :
    ∃ cs' b,
      checkRules (config.withold_notification_h.getD (24 * 60 * 60)) now lt
        (fetch_prices config raw) config.currencies 0 = some (cs', b) ∧
      config' = { config with currencies := cs' } ∧
      notif = (if b = [] then none else some b) ∧
      nok = (if b = [] then true else notify_ok) := by
  have heq : check_currencies config (.ok raw) notify_ok now lt =
      match checkRules (config.withold_notification_h.getD (24 * 60 * 60)) now lt
          (fetch_prices config raw) config.currencies 0 with
      | none => .panic
      | some (cs', b) =>
        if b.isEmpty then .done { config with currencies := cs' } none true
        else .done { config with currencies := cs' } (some b) notify_ok := rfl
  rw [heq] at h
  cases hcr : checkRules (config.withold_notification_h.getD (24 * 60 * 60)) now lt
      (fetch_prices config raw) config.currencies 0 with
  | none => rw [hcr] at h; simp at h
  | some cb =>
    rw [hcr] at h
    obtain ⟨cs', b⟩ := cb
    refine ⟨cs', b, rfl, ?_⟩
    cases b with
    | nil =>
      simp only [List.isEmpty_nil, if_true, CheckResult.done.injEq] at h
      simp [h.1.symm, h.2.1.symm, h.2.2.symm]
    | cons m ms =>
      simp only [List.isEmpty_cons, Bool.false_eq_true, if_false, CheckResult.done.injEq] at h
      simp [h.1.symm, h.2.1.symm, h.2.2.symm]

/-- A rule whose price is present and parses but whose condition is not met
never fires; its alerted state is cleared (a no-op when already clear). -/
theorem checkRule_not_met {w now : ℕ} {l : String} {pr : List BinancePrice}
    {c : CurrencyAlert} {cp : BinancePrice} {v : ℚ}
    (hfind : pr.find? (fun p => p.symbol == c.symbol) = some cp)
    (hparse : parseF64 cp.price = some v)
    (htrig : alert_triggered c.alert_condition v c.threshold = false) :
    checkRule w now l pr c = some ({ c with last_alerted := none }, none) := by
  obtain ⟨s, th, cond, la⟩ := c
  cases la with
  | none => simp [checkRule, hfind, hparse, htrig]
  | some ts => simp [checkRule, hfind, hparse, htrig]

/-- C1 (confirmed): for every rule whose condition is met at the current price,
if `last_alerted` is `none`, or `now - last_alerted` exceeds the withhold
window, evaluation fires: `last_alerted` is set to `now`, a rendered message is
produced, and at cycle level that message is a member of the notification body
accumulated by the rule loop. -/
theorem checkRule_fires_when_due
    (withold_time_secs now : ℕ) (lt : ℕ → String) (prices : List BinancePrice)
    (c : CurrencyAlert) (cp : BinancePrice) (v : ℚ)
    (hfind : prices.find? (fun p => p.symbol == c.symbol) = some cp)
    (hparse : parseF64 cp.price = some v)
    (htrig : alert_triggered c.alert_condition v c.threshold = true)
    (hnow : now < 2 ^ 64)
    (hfire : c.last_alerted = none ∨
      ∃ ts, c.last_alerted = some ts ∧ now - ts > withold_time_secs) :
    (∀ l, checkRule withold_time_secs now l prices c =
      some ({ c with last_alerted := some now },
        some { symbol := c.symbol, condition := c.alert_condition,
               threshold := c.threshold, price := v, time := l })) ∧
    ∀ pre post i cs' b,
      checkRules withold_time_secs now lt prices (pre ++ c :: post) i = some (cs', b) →
      { symbol := c.symbol, condition := c.alert_condition, threshold := c.threshold,
        price := v, time := lt (i + pre.length) : Message } ∈ b := by
  have hsa : should_alert withold_time_secs now c.last_alerted = true := by
    rcases hfire with hnone | ⟨ts, hts, hgt⟩
    · rw [hnone]; rfl
    · rw [hts]
      simp only [should_alert]
      have hle : ts ≤ now := by omega
      rw [wrapSub64_of_le hle hnow]
      simpa using hgt
  have hcr : ∀ l, checkRule withold_time_secs now l prices c =
      some ({ c with last_alerted := some now },
        some { symbol := c.symbol, condition := c.alert_condition,
               threshold := c.threshold, price := v, time := l }) := by
    intro l
    simp [checkRule, hfind, hparse, htrig, hsa]
  refine ⟨hcr, ?_⟩
  intro pre post i cs' b h
  have hb := checkRules_body (pre ++ c :: post) i cs' b h
  rw [hb, firedMsgs_append]
  apply List.mem_append_right
  simp only [firedMsgs, hcr (lt (i + pre.length))]
  simp

/-- Witness for C1 at a concrete input (scenario 1 of the spec). -/
theorem checkRule_fires_when_due_witness :
    checkRule 86400 1000 "T" [⟨"BTCUSDT", "51000"⟩]
        ⟨"BTCUSDT", 50000, AlertCondition.Above, none⟩ =
      some (⟨"BTCUSDT", 50000, AlertCondition.Above, some 1000⟩,
        some ⟨"BTCUSDT", AlertCondition.Above, 50000, 51000, "T"⟩) :=
  (checkRule_fires_when_due 86400 1000 (fun _ => "T") [⟨"BTCUSDT", "51000"⟩]
    ⟨"BTCUSDT", 50000, AlertCondition.Above, none⟩ ⟨"BTCUSDT", "51000"⟩ 51000
    (by decide) (by decide) (by decide) (by decide) (Or.inl rfl)).1 "T"

/-- C2 (confirmed): a rule whose condition is not met never fires; if its
alerted state was set it is reset to `none` with no message, and if it was
already `none` the evaluation is a no-op, idempotent under repetition. -/
theorem checkRule_reset_when_not_met
    (withold_time_secs now : ℕ) (l : String) (prices : List BinancePrice)
    (c : CurrencyAlert) (cp : BinancePrice) (v : ℚ)
    (hfind : prices.find? (fun p => p.symbol == c.symbol) = some cp)
    (hparse : parseF64 cp.price = some v)
    (htrig : alert_triggered c.alert_condition v c.threshold = false) :
    checkRule withold_time_secs now l prices c =
      some ({ c with last_alerted := none }, none) ∧
    (c.last_alerted = none →
      checkRule withold_time_secs now l prices c = some (c, none)) ∧
    checkRule withold_time_secs now l prices { c with last_alerted := none } =
      some ({ c with last_alerted := none }, none) := by
  obtain ⟨s, th, cond, la⟩ := c
  refine ⟨checkRule_not_met hfind hparse htrig, ?_, ?_⟩
  · intro hla
    simp only at hla
    subst hla
    exact checkRule_not_met hfind hparse htrig
  · exact checkRule_not_met hfind hparse htrig

/-- Witness for C2 at a concrete input (scenario 4 of the spec, transposed to
the Above condition). -/
theorem checkRule_reset_when_not_met_witness :
    checkRule 86400 1000 "T" [⟨"BTCUSDT", "49000"⟩]
        ⟨"BTCUSDT", 50000, AlertCondition.Above, some 5⟩ =
      some (⟨"BTCUSDT", 50000, AlertCondition.Above, none⟩, none) :=
  (checkRule_reset_when_not_met 86400 1000 "T" [⟨"BTCUSDT", "49000"⟩]
    ⟨"BTCUSDT", 50000, AlertCondition.Above, some 5⟩ ⟨"BTCUSDT", "49000"⟩ 49000
    (by decide) (by decide) (by decide)).1

/-- C3 (confirmed): a rule whose condition is met while still within the
withhold window (boundary included) is suppressed: no state change and no
message, hence idempotent under repeated evaluation of the same inputs. -/
theorem checkRule_suppressed_within_cooldown
    (withold_time_secs now ts : ℕ) (l : String) (prices : List BinancePrice)
    (c : CurrencyAlert) (cp : BinancePrice) (v : ℚ)
    (hfind : prices.find? (fun p => p.symbol == c.symbol) = some cp)
    (hparse : parseF64 cp.price = some v)
    (htrig : alert_triggered c.alert_condition v c.threshold = true)
    (hlast : c.last_alerted = some ts)
    (hts : ts ≤ now)
    (hcool : now - ts ≤ withold_time_secs)
    (hnow : now < 2 ^ 64) :
    checkRule withold_time_secs now l prices c = some (c, none) := by
  have hsa : should_alert withold_time_secs now c.last_alerted = false := by
    rw [hlast]
    simp only [should_alert]
    rw [wrapSub64_of_le hts hnow]
    simp
    omega
  simp [checkRule, hfind, hparse, htrig, hsa]

/-- Witness for C3 at a concrete input (scenario 2 of the spec: 60 seconds
after the alert, within the 86400-second window). -/
theorem checkRule_suppressed_within_cooldown_witness :
    checkRule 86400 1060 "T" [⟨"BTCUSDT", "52000"⟩]
        ⟨"BTCUSDT", 50000, AlertCondition.Above, some 1000⟩ =
      some (⟨"BTCUSDT", 50000, AlertCondition.Above, some 1000⟩, none) :=
  checkRule_suppressed_within_cooldown 86400 1060 1000 "T" [⟨"BTCUSDT", "52000"⟩]
    ⟨"BTCUSDT", 50000, AlertCondition.Above, some 1000⟩ ⟨"BTCUSDT", "52000"⟩ 52000
    (by decide) (by decide) (by decide) (by decide) (by decide) (by decide) (by decide)

/-- C4 (code_bug): with the clock moved backward (`now = 5` earlier than
`last_alerted = 10`) and the condition met, the plain `u64` subtraction
`current_time - timestamp` wraps modulo `2 ^ 64` to a huge elapsed value, so
the rule FIRES (timestamp rewritten, message rendered) instead of being treated
as within cooldown; no saturating or checked subtraction is used. -/
theorem clock_backward_wraps_and_fires :
    checkRule 86400 5 "T" [⟨"BTCUSDT", "51000"⟩]
        ⟨"BTCUSDT", 50000, AlertCondition.Above, some 10⟩ =
      some (⟨"BTCUSDT", 50000, AlertCondition.Above, some 5⟩,
        some ⟨"BTCUSDT", AlertCondition.Above, 50000, 51000, "T"⟩) ∧
    wrapSub64 5 10 = 2 ^ 64 - 5 := by
  constructor
  · decide
  · decide

/-- C5 (code_bug): a fetched price whose string does not parse as a number hits
`parse::<f64>().unwrap()` and aborts the whole process (modeled as `none`),
rather than skipping the rule: at cycle level nothing is evaluated further, no
notification is sent, and the state file is never written. -/
theorem malformed_price_aborts_process :
    checkRule 86400 1000 "T" [⟨"BTCUSDT", "abc"⟩]
        ⟨"BTCUSDT", 50000, AlertCondition.Above, none⟩ = none ∧
    mainIter ⟨60, none, [⟨"BTCUSDT", 50000, AlertCondition.Above, none⟩]⟩
        (FetchResult.ok [⟨"BTCUSDT", "abc"⟩]) true 1000 (fun _ => "T") =
      { config := ⟨60, none, [⟨"BTCUSDT", 50000, AlertCondition.Above, none⟩]⟩,
        written := none, notifierCalls := 0, errorReported := false } := by
  constructor
  · decide
  · decide

/-- C6 (confirmed): in every cycle the notifier is called at most once; when
the cycle completes, the single call is made exactly when the set of fired
rules is non-empty, and its body is the concatenation, in rule order, of the
messages of all fired rules. -/
theorem notifier_called_at_most_once_with_all_messages
    (config : Config) (raw : List BinancePrice) (notify_ok : Bool)
    (now : ℕ) (lt : ℕ → String) :
    (∀ fetch, (mainIter config fetch notify_ok now lt).notifierCalls ≤ 1) ∧
    (∀ config' notif nok,
      check_currencies config (.ok raw) notify_ok now lt = .done config' notif nok →
      ((mainIter config (.ok raw) notify_ok now lt).notifierCalls =
        if firedMsgs (config.withold_notification_h.getD (24 * 60 * 60)) now lt
            (fetch_prices config raw) config.currencies 0 = [] then 0 else 1) ∧
      notif = (if firedMsgs (config.withold_notification_h.getD (24 * 60 * 60)) now lt
            (fetch_prices config raw) config.currencies 0 = [] then none
          else some (firedMsgs (config.withold_notification_h.getD (24 * 60 * 60)) now lt
            (fetch_prices config raw) config.currencies 0))) := by
  constructor
  · intro fetch
    cases h : check_currencies config fetch notify_ok now lt with
    | panic => simp [mainIter, h]
    | fetchErr => simp [mainIter, h]
    | done config' notif nok =>
      cases notif <;> simp [mainIter, h]
  · intro config' notif nok h
    obtain ⟨cs', b, hcr, hcfg, hnotif, hnok⟩ := check_currencies_done h
    have hb : b = firedMsgs (config.withold_notification_h.getD (24 * 60 * 60)) now lt
        (fetch_prices config raw) config.currencies 0 :=
      checkRules_body config.currencies 0 cs' b hcr
    subst hb
    refine ⟨?_, hnotif⟩
    rw [hnotif] at h
    by_cases hempty : firedMsgs (config.withold_notification_h.getD (24 * 60 * 60)) now lt
        (fetch_prices config raw) config.currencies 0 = []
    · rw [if_pos hempty] at h ⊢
      simp [mainIter, h]
    · rw [if_neg hempty] at h ⊢
      simp [mainIter, h]

/-- Concrete two-rule configuration in which both rules fire. -/
def cfgTwo : Config :=
  ⟨60, none, [⟨"AAAUSDT", 10, AlertCondition.Above, none⟩,
    ⟨"BBBUSDT", 10, AlertCondition.Above, none⟩]⟩

/-- Price feed making both rules of `cfgTwo` fire. -/
def rawTwo : List BinancePrice := [⟨"AAAUSDT", "20"⟩, ⟨"BBBUSDT", "20"⟩]

/-- The configuration `cfgTwo` after both rules fired at time 100. -/
def cfgTwoFired : Config :=
  ⟨60, none, [⟨"AAAUSDT", 10, AlertCondition.Above, some 100⟩,
    ⟨"BBBUSDT", 10, AlertCondition.Above, some 100⟩]⟩

/-- Witness for C6: two simultaneously firing rules, one notifier call whose
body holds both messages. -/
theorem notifier_called_at_most_once_with_all_messages_witness :
    ((mainIter cfgTwo (.ok rawTwo) true 100 (fun _ => "T")).notifierCalls =
      if firedMsgs (cfgTwo.withold_notification_h.getD (24 * 60 * 60)) 100 (fun _ => "T")
          (fetch_prices cfgTwo rawTwo) cfgTwo.currencies 0 = [] then 0 else 1) ∧
    (some [⟨"AAAUSDT", AlertCondition.Above, 10, 20, "T"⟩,
        ⟨"BBBUSDT", AlertCondition.Above, 10, 20, "T"⟩] : Option (List Message)) =
      (if firedMsgs (cfgTwo.withold_notification_h.getD (24 * 60 * 60)) 100 (fun _ => "T")
          (fetch_prices cfgTwo rawTwo) cfgTwo.currencies 0 = [] then none
        else some (firedMsgs (cfgTwo.withold_notification_h.getD (24 * 60 * 60)) 100
          (fun _ => "T") (fetch_prices cfgTwo rawTwo) cfgTwo.currencies 0)) :=
  (notifier_called_at_most_once_with_all_messages cfgTwo rawTwo true 100 (fun _ => "T")).2
    cfgTwoFired
    (some [⟨"AAAUSDT", AlertCondition.Above, 10, 20, "T"⟩,
      ⟨"BBBUSDT", AlertCondition.Above, 10, 20, "T"⟩])
    true (by decide)

/-- C7 counterexample: after a total fetch failure the cycle does leave the
rules unchanged, makes no notifier call and reports the error, but the claim's
remaining conjunct is false — the state file IS rewritten, because the write in
main's loop is unconditional. -/
theorem fetch_error_cycle_claim_cex :
    ¬ ((mainIter ⟨60, none, [⟨"BTCUSDT", 50000, AlertCondition.Above, none⟩]⟩
          FetchResult.err true 1000 (fun _ => "T")).config =
        ⟨60, none, [⟨"BTCUSDT", 50000, AlertCondition.Above, none⟩]⟩ ∧
      (mainIter ⟨60, none, [⟨"BTCUSDT", 50000, AlertCondition.Above, none⟩]⟩
          FetchResult.err true 1000 (fun _ => "T")).notifierCalls = 0 ∧
      (mainIter ⟨60, none, [⟨"BTCUSDT", 50000, AlertCondition.Above, none⟩]⟩
          FetchResult.err true 1000 (fun _ => "T")).errorReported = true ∧
      (mainIter ⟨60, none, [⟨"BTCUSDT", 50000, AlertCondition.Above, none⟩]⟩
          FetchResult.err true 1000 (fun _ => "T")).written = none) := by
  decide

/-- C7 amended: a fetch-failure cycle leaves every rule's `last_alerted`
unchanged, triggers no notification and reports the error, but the state file
is still rewritten — with the unchanged configuration — because main's loop
writes it unconditionally after every check. -/
theorem fetch_error_cycle_no_mutation_but_still_writes
    (config : Config) (notify_ok : Bool) (now : ℕ) (lt : ℕ → String) :
    mainIter config FetchResult.err notify_ok now lt =
      { config := config, written := some config,
        notifierCalls := 0, errorReported := true } := rfl

/-- C8 (confirmed): when the notifier call fails after fire decisions were
made, the cycle still persists the full rule set with the updated timestamps:
the state file receives exactly the updated config, the failure is reported,
and every rule that fired carries `last_alerted = now` in the persisted set. -/
theorem notify_failure_still_persists_updated_rules
    (config : Config) (raw : List BinancePrice) (now : ℕ) (lt : ℕ → String)
    (config' : Config) (b : List Message)
    (h : check_currencies config (.ok raw) false now lt = .done config' (some b) false) :
    (mainIter config (.ok raw) false now lt).written = some config' ∧
    (mainIter config (.ok raw) false now lt).errorReported = true ∧
    ∀ j c c' m, config.currencies[j]? = some c →
      checkRule (config.withold_notification_h.getD (24 * 60 * 60)) now (lt j)
        (fetch_prices config raw) c = some (c', some m) →
      config'.currencies[j]? = some c' ∧ c'.last_alerted = some now := by
  obtain ⟨cs', b2, hcr, hcfg, hnotif, hnok⟩ := check_currencies_done h
  refine ⟨by simp [mainIter, h], by simp [mainIter, h], ?_⟩
  intro j c c' m hj hcrj
  obtain ⟨c'', m', hc'', hget⟩ := checkRules_get config.currencies 0 cs' b2 hcr j c hj
  rw [Nat.zero_add] at hc''
  rw [hcrj] at hc''
  simp only [Option.some.injEq, Prod.mk.injEq] at hc''
  obtain ⟨hcc, hmm⟩ := hc''
  have hfired := checkRule_fired hcrj
  refine ⟨?_, ?_⟩
  · rw [hcfg]
    simpa [hcc] using hget
  · rw [hfired.1]

/-- Witness for C8: one firing rule, notifier failure, state still written with
the refreshed timestamp. -/
theorem notify_failure_still_persists_updated_rules_witness :
    (mainIter ⟨60, none, [⟨"AAAUSDT", 10, AlertCondition.Above, none⟩]⟩
        (.ok [⟨"AAAUSDT", "20"⟩]) false 100 (fun _ => "T")).written =
      some ⟨60, none, [⟨"AAAUSDT", 10, AlertCondition.Above, some 100⟩]⟩ ∧
    (mainIter ⟨60, none, [⟨"AAAUSDT", 10, AlertCondition.Above, none⟩]⟩
        (.ok [⟨"AAAUSDT", "20"⟩]) false 100 (fun _ => "T")).errorReported = true ∧
    (⟨60, none, [⟨"AAAUSDT", 10, AlertCondition.Above, some 100⟩]⟩ : Config).currencies[0]? =
      some ⟨"AAAUSDT", 10, AlertCondition.Above, some 100⟩ ∧
    (⟨"AAAUSDT", 10, AlertCondition.Above, some 100⟩ : CurrencyAlert).last_alerted = some 100 := by
  have h := notify_failure_still_persists_updated_rules
    ⟨60, none, [⟨"AAAUSDT", 10, AlertCondition.Above, none⟩]⟩ [⟨"AAAUSDT", "20"⟩] 100
    (fun _ => "T") ⟨60, none, [⟨"AAAUSDT", 10, AlertCondition.Above, some 100⟩]⟩
    [⟨"AAAUSDT", AlertCondition.Above, 10, 20, "T"⟩] (by decide)
  refine ⟨h.1, h.2.1, ?_, ?_⟩
  · exact (h.2.2 0 ⟨"AAAUSDT", 10, AlertCondition.Above, none⟩
      ⟨"AAAUSDT", 10, AlertCondition.Above, some 100⟩
      ⟨"AAAUSDT", AlertCondition.Above, 10, 20, "T"⟩ (by decide) (by decide)).1
  · exact (h.2.2 0 ⟨"AAAUSDT", 10, AlertCondition.Above, none⟩
      ⟨"AAAUSDT", 10, AlertCondition.Above, some 100⟩
      ⟨"AAAUSDT", AlertCondition.Above, 10, 20, "T"⟩ (by decide) (by decide)).2

/-- C9 (confirmed): the comparison against the threshold is strict in both
directions, so a price exactly equal to the threshold never meets the condition
and the rule never fires (its alerted state ends cleared, with no message). -/
theorem equal_price_never_triggers
    (withold_time_secs now : ℕ) (l : String) (prices : List BinancePrice)
    (c : CurrencyAlert) (cp : BinancePrice)
    (hfind : prices.find? (fun p => p.symbol == c.symbol) = some cp)
    (hparse : parseF64 cp.price = some c.threshold) :
    alert_triggered c.alert_condition c.threshold c.threshold = false ∧
    checkRule withold_time_secs now l prices c =
      some ({ c with last_alerted := none }, none) := by
  have htrig : alert_triggered c.alert_condition c.threshold c.threshold = false := by
    cases hc : c.alert_condition <;> simp [alert_triggered]
  exact ⟨htrig, checkRule_not_met hfind hparse htrig⟩

/-- Witness for C9: price string parsing to exactly the threshold value. -/
theorem equal_price_never_triggers_witness :
    alert_triggered AlertCondition.Above (50000 : ℚ) 50000 = false ∧
    checkRule 86400 1000 "T" [⟨"BTCUSDT", "50000"⟩]
        ⟨"BTCUSDT", 50000, AlertCondition.Above, some 7⟩ =
      some (⟨"BTCUSDT", 50000, AlertCondition.Above, none⟩, none) :=
  equal_price_never_triggers 86400 1000 "T" [⟨"BTCUSDT", "50000"⟩]
    ⟨"BTCUSDT", 50000, AlertCondition.Above, some 7⟩ ⟨"BTCUSDT", "50000"⟩
    (by decide) (by decide)

/-- C10 counterexample: the cycle performs wall-clock reads beyond the single
pre-loop `SystemTime` read — one `Local::now()` read per fired rule's rendered
message. With the per-read oracle returning its read index, the two fired
rules' messages carry the different clock strings "0" and "1", and the cycle's
output is not invariant under the later reads. -/
theorem per_rule_clock_reads_cex :
    check_currencies cfgTwo (.ok rawTwo) true 100 (fun i => toString i) =
      CheckResult.done cfgTwoFired
        (some [⟨"AAAUSDT", AlertCondition.Above, 10, 20, "0"⟩,
          ⟨"BBBUSDT", AlertCondition.Above, 10, 20, "1"⟩]) true ∧
    check_currencies cfgTwo (.ok rawTwo) true 100 (fun _ => "a") ≠
      check_currencies cfgTwo (.ok rawTwo) true 100 (fun _ => "b") := by
  constructor
  · decide
  · decide

/-- C10 amended: the `SystemTime` epoch clock is read once per cycle before the
rule loop and every fired rule's `last_alerted` is set to that one timestamp;
the persisted rule states are invariant under the additional per-message
`Local::now()` reads, which affect only the rendered message texts. -/
theorem single_timestamp_for_all_fired_rules
    (config : Config) (raw : List BinancePrice) (n1 n2 : Bool) (now : ℕ)
    (lt lt' : ℕ → String) (c1 c2 : Config) (f1 f2 : Option (List Message)) (b1 b2 : Bool)
    (h1 : check_currencies config (.ok raw) n1 now lt = .done c1 f1 b1)
    (h2 : check_currencies config (.ok raw) n2 now lt' = .done c2 f2 b2) :
    c1 = c2 ∧
    ∀ j c c' m, config.currencies[j]? = some c →
      checkRule (config.withold_notification_h.getD (24 * 60 * 60)) now (lt j)
        (fetch_prices config raw) c = some (c', some m) →
      c1.currencies[j]? = some c' ∧ c'.last_alerted = some now := by
  obtain ⟨cs1, bb1, hcr1, hcfg1, hn1, hk1⟩ := check_currencies_done h1
  obtain ⟨cs2, bb2, hcr2, hcfg2, hn2, hk2⟩ := check_currencies_done h2
  have horacle := @checkRules_fst_oracle (config.withold_notification_h.getD (24 * 60 * 60))
    now (fetch_prices config raw) config.currencies lt lt' 0 0
  rw [hcr1, hcr2] at horacle
  simp only [Option.map_some'] at horacle
  have hcs : cs1 = cs2 := Option.some.inj horacle
  constructor
  · rw [hcfg1, hcfg2, hcs]
  · intro j c c' m hj hcrj
    obtain ⟨c'', m', hc'', hget⟩ := checkRules_get config.currencies 0 cs1 bb1 hcr1 j c hj
    rw [Nat.zero_add] at hc''
    rw [hcrj] at hc''
    simp only [Option.some.injEq, Prod.mk.injEq] at hc''
    obtain ⟨hcc, hmm⟩ := hc''
    have hfired := checkRule_fired hcrj
    refine ⟨?_, ?_⟩
    · rw [hcfg1]
      simpa [hcc] using hget
    · rw [hfired.1]

/-- Witness for C10 amended: the two-rule firing cycle evaluated with two
different wall-clock oracles yields the same persisted rule states, both
stamped with the single pre-loop time. -/
theorem single_timestamp_for_all_fired_rules_witness :
    cfgTwoFired = cfgTwoFired ∧
    cfgTwoFired.currencies[0]? = some ⟨"AAAUSDT", 10, AlertCondition.Above, some 100⟩ ∧
    (⟨"AAAUSDT", 10, AlertCondition.Above, some 100⟩ : CurrencyAlert).last_alerted =
      some 100 := by
  have h := single_timestamp_for_all_fired_rules cfgTwo rawTwo true true 100
    (fun i => toString i) (fun _ => "x") cfgTwoFired cfgTwoFired
    (some [⟨"AAAUSDT", AlertCondition.Above, 10, 20, "0"⟩,
      ⟨"BBBUSDT", AlertCondition.Above, 10, 20, "1"⟩])
    (some [⟨"AAAUSDT", AlertCondition.Above, 10, 20, "x"⟩,
      ⟨"BBBUSDT", AlertCondition.Above, 10, 20, "x"⟩])
    true true (by decide) (by decide)
  refine ⟨h.1, ?_, ?_⟩
  · exact (h.2 0 ⟨"AAAUSDT", 10, AlertCondition.Above, none⟩
      ⟨"AAAUSDT", 10, AlertCondition.Above, some 100⟩
      ⟨"AAAUSDT", AlertCondition.Above, 10, 20, "0"⟩ (by decide) (by decide)).1
  · exact (h.2 0 ⟨"AAAUSDT", 10, AlertCondition.Above, none⟩
      ⟨"AAAUSDT", 10, AlertCondition.Above, some 100⟩
      ⟨"AAAUSDT", AlertCondition.Above, 10, 20, "0"⟩ (by decide) (by decide)).2

end ByeWatch
